import Mathlib

/-
Shallow embedding of the FrankerFaceZ socket server core (Go), covering:
  * the pub/sub subscription registry and publisher fan-out
    (SubscribeChannel / _subscribeWhileRlocked, PublishToChannel,
    PublishToMultiple, PublishToAll, UnsubscribeAll, pubsubJanitor);
  * the wire codec (MarshalClientMessage / UnmarshalClientMessage) and the
    typed argument views (ArgumentsAsInt);
  * the per-connection supervisor's ping-miss discipline.

Go `chan<- ClientMessage` delivery endpoints are identified by their channel
identity only (the registry deduplicates and removes by channel value), so an
endpoint is modelled as a bare identifier.  The Go map
`map[string]*SubscriberList` is modelled as an association list whose value is
`Option (List Endpoint)`: `none` models a nil `*SubscriberList` pointer stored
under the key, and a missing key and a nil pointer both read back as `none`,
exactly as a Go map lookup of a pointer type does.
-/


abbrev Endpoint := Nat

/-- The topic map `ChatSubscriptionInfo : map[string]*SubscriberList`.
Each entry's value is `none` for a stored nil pointer, `some members` for a
record with member list `members`. -/
abbrev ChanMap := List (String × Option (List Endpoint))

/-- Raw association-list lookup: `none` when the key is absent. -/
def mapLookup : ChanMap → String → Option (Option (List Endpoint))
  | [], _ => none
  | (k', v) :: rest, k => if k = k' then some v else mapLookup rest k

/-- Go map read `ChatSubscriptionInfo[k]`: a missing key and a stored nil
pointer both yield a nil list. -/
def mapGet (m : ChanMap) (k : String) : Option (List Endpoint) :=
  (mapLookup m k).join

/-- Go map assignment `ChatSubscriptionInfo[k] = v` (replace or insert). -/
def mapSet : ChanMap → String → Option (List Endpoint) → ChanMap
  | [], k, v => [(k, v)]
  | (k', v') :: rest, k, v =>
    if k' = k then (k, v) :: rest else (k', v') :: mapSet rest k v

/-- One step of building the `found` set in `PublishToMultiple`:
`found[msgChan] = struct{}{}` on a Go map keyed by channel identity inserts
the endpoint if it is not already present. -/
def insertFound (found : List Endpoint) (e : Endpoint) : List Endpoint :=
  if e ∈ found then found else found ++ [e]

/-- The collection loop of `PublishToMultiple`: for each listed channel, if
its record is present, add every member to the `found` set. -/
def collectMulti (m : ChanMap) (channels : List String) : List Endpoint :=
  channels.foldl
    (fun found ch =>
      match mapGet m ch with
      | none => found
      | some members => members.foldl insertFound found)
    []

/-- `PublishToMultiple`: build the deduplicated `found` set under the locks,
then (outside all locks) send once per element of `found`, incrementing
`count` per send.  Returns the list of endpoints sent to, in send order, and
the returned `count`. -/
def PublishToMultiple (m : ChanMap) (channels : List String) :
    List Endpoint × Nat :=
  let found := collectMulti m channels
  (found, found.length)

/-
Lock-trace model for the publish fan-out paths.  Each publish routine is
embedded as the sequence of lock acquisitions, lock releases and endpoint
sends it performs, read off line by line from the Go source.  `sendsOk ok`
checks that every `send` event happens while the set of currently held locks
satisfies `ok`.
-/

inductive LockId
  | registry
  | record (name : String)
  | globalSet
deriving DecidableEq

inductive LockMode
  | r
  | w
deriving DecidableEq

inductive PubEv
  | acq (l : LockId) (mo : LockMode)
  | rel (l : LockId)
  | send (e : Endpoint)
deriving DecidableEq

def heldStep (h : List (LockId × LockMode)) : PubEv → List (LockId × LockMode)
  | PubEv.acq l mo => (l, mo) :: h
  | PubEv.rel l => h.eraseP (fun p => decide (p.1 = l))
  | PubEv.send _ => h

def heldAfter (h : List (LockId × LockMode)) (evs : List PubEv) :
    List (LockId × LockMode) :=
  evs.foldl heldStep h

def sendsOk (ok : List (LockId × LockMode) → Bool) :
    List (LockId × LockMode) → List PubEv → Bool
  | _, [] => true
  | h, ev :: rest =>
    (match ev with
     | PubEv.send _ => ok h
     | _ => true) && sendsOk ok (heldStep h ev) rest

/-- "No lock is held at this point": the held-lock set is empty. -/
def lockFree (h : List (LockId × LockMode)) : Bool := h.isEmpty

/-- "Only read-mode locks are held at this point". -/
def readOnlyHeld (h : List (LockId × LockMode)) : Bool :=
  h.all (fun p => decide (p.2 = LockMode.r))

/-- Trace of `PublishToChannel`: registry read lock, then (if the record
exists) record read lock, the send loop, record unlock; finally registry
unlock.  The sends happen inside both read locks. -/
def PublishToChannelTrace (m : ChanMap) (channel : String) : List PubEv :=
  PubEv.acq LockId.registry LockMode.r ::
    ((match mapGet m channel with
      | none => []
      | some members =>
        PubEv.acq (LockId.record channel) LockMode.r ::
          (members.map PubEv.send ++ [PubEv.rel (LockId.record channel)])) ++
     [PubEv.rel LockId.registry])

/-- The record-lock acquire/release pairs of `PublishToMultiple`'s collection
loop (no sends happen inside them). -/
def multiLockPairs (m : ChanMap) (channels : List String) : List PubEv :=
  channels.flatMap (fun ch =>
    match mapGet m ch with
    | none => []
    | some _ =>
      [PubEv.acq (LockId.record ch) LockMode.r,
       PubEv.rel (LockId.record ch)])

/-- Trace of `PublishToMultiple`: registry read lock, per-record read
lock/unlock pairs while building `found`, registry unlock, and only then the
send loop over the deduplicated set. -/
def PublishToMultipleTrace (m : ChanMap) (channels : List String) :
    List PubEv :=
  PubEv.acq LockId.registry LockMode.r ::
    (multiLockPairs m channels ++
      (PubEv.rel LockId.registry ::
        (collectMulti m channels).map PubEv.send))

/-- Trace of `PublishToAll`: the sends happen inside the global set's read
lock. -/
def PublishToAllTrace (g : List Endpoint) : List PubEv :=
  PubEv.acq LockId.globalSet LockMode.r ::
    (g.map PubEv.send ++ [PubEv.rel LockId.globalSet])

/-
Registry mutation operations: SubscribeChannel / _subscribeWhileRlocked,
UnsubscribeAll, and the janitor.  The client session state carries the
fields of `ClientInfo` that these operations touch.  The type of the pending
subscription backlog entries is irrelevant to the claims (the operation only
ever sets the field to nil), so its entries are modelled as strings.
-/

structure ClientInfo where
  MessageChannel : Endpoint
  CurrentChannels : List String
  PendingSubscriptionsBacklog : List String

structure PubSubState where
  chat : ChanMap
  globalSubs : List Endpoint

/-- Modelled from the spec: `AddToSliceC` is defined outside the given
sources; per the spec's `subscribe` operation it appends the endpoint to the
member list with no duplicate insertion. -/
def AddToSliceC (l : List Endpoint) (e : Endpoint) : List Endpoint :=
  if e ∈ l then l else l ++ [e]

/-- Modelled from the spec: `RemoveFromSliceC` is defined outside the given
sources; per the spec's `unsubscribe` operation it removes the endpoint from
the member list if present (subscriber sets carry no duplicates). -/
def RemoveFromSliceC (l : List Endpoint) (e : Endpoint) : List Endpoint :=
  l.filter (fun x => decide (x ≠ e))

/-- `_subscribeWhileRlocked`: if the record is missing (or a nil pointer),
create it already populated with `[value]` and install it, reporting `true`
(a new-topic notice is spawned); otherwise append to the existing record
under its write lock, reporting `false` (no notice). -/
def subscribeWhileRlocked (m : ChanMap) (channelName : String)
    (value : Endpoint) : ChanMap × Bool :=
  match mapGet m channelName with
  | none => (mapSet m channelName (some [value]), true)
  | some members =>
    (mapSet m channelName (some (AddToSliceC members value)), false)

/-- `SubscribeChannel` delegates to `_subscribeWhileRlocked` with the
client's message channel. -/
def SubscribeChannel (m : ChanMap) (client : ClientInfo)
    (channelName : String) : ChanMap × Bool :=
  subscribeWhileRlocked m channelName client.MessageChannel

/-- The per-topic removal step of `UnsubscribeAll`'s loop body. -/
def unsubStep (e : Endpoint) (m : ChanMap) (v : String) : ChanMap :=
  match mapGet m v with
  | none => m
  | some members => mapSet m v (some (RemoveFromSliceC members e))

/-- The loop of `UnsubscribeAll` over `client.CurrentChannels`. -/
def unsubAllFold (e : Endpoint) (m : ChanMap) (chs : List String) : ChanMap :=
  chs.foldl (unsubStep e) m

/-- `UnsubscribeAll`: clear the pending subscription backlog, remove the
endpoint from the global set, remove it from every record named in
`CurrentChannels`, and clear `CurrentChannels`. -/
def UnsubscribeAll (st : PubSubState) (client : ClientInfo) :
    PubSubState × ClientInfo :=
  let g := RemoveFromSliceC st.globalSubs client.MessageChannel
  let chat := unsubAllFold client.MessageChannel st.chat client.CurrentChannels
  ({ chat := chat, globalSubs := g },
   { MessageChannel := client.MessageChannel, CurrentChannels := [],
     PendingSubscriptionsBacklog := [] })

/-- One tick of `pubsubJanitor`: delete every entry whose value is a nil
pointer or whose member list is empty, collecting the deleted keys in
iteration order. -/
def janitorTick : ChanMap → ChanMap × List String
  | [] => ([], [])
  | (key, val) :: rest =>
    let r := janitorTick rest
    match val with
    | none => (r.1, key :: r.2)
    | some members =>
      if members.isEmpty then (r.1, key :: r.2) else ((key, val) :: r.1, r.2)

/-- After the tick, `SendCleanupTopicsNotice(cleanedUp)` is called exactly
when `cleanedUp` is non-empty; the notice carries the whole batch. -/
def janitorNotice (cleanedUp : List String) : Option (List String) :=
  if cleanedUp.isEmpty then none else some cleanedUp

/-
Wire codec.  Go strings are byte sequences; frames are modelled as lists of
characters.  `ClientMessage.Arguments` is Go's `interface{}` holding the
JSON-decoded arguments; since `encoding/json` is external to this
repository, the codec is parameterised by the argument type `J` together
with the marshal/parse functions standing for `json.Marshal` /
`json.Unmarshal`.  Go local-variable assignments are inlined; `strconv.Atoi`
is modelled by the value it returns (0 on a syntax error, the value clamped
to the int64 range on a range error) because `UnmarshalClientMessage` never
inspects Atoi's error return.
-/

def spaceChar : Char := Char.ofNat 32

structure ClientMessage (J : Type) where
  MessageID : Int
  Command : List Char
  Arguments : Option J
  origArguments : List Char

/-- The zero value of `var msg ClientMessage` in the reader goroutine. -/
def zeroMessage (J : Type) : ClientMessage J := ⟨0, [], none, []⟩

inductive UnmarshalErr
  | protocolError
  | protocolErrorNegativeID
  | jsonError
deriving DecidableEq

/-- `strings.IndexRune(s, ' ')` combined with the two slicings
`s[:spaceIdx]` and `s[spaceIdx+1:]`: split at the first space. -/
def splitFirstSpace : List Char → Option (List Char × List Char)
  | [] => none
  | c :: rest =>
    if c = spaceChar then some ([], rest)
    else
      match splitFirstSpace rest with
      | none => none
      | some (a, b) => some (c :: a, b)

def digitChar (n : Nat) : Char := Char.ofNat (48 + n)

def isDigitChar (c : Char) : Bool := 48 ≤ c.toNat && c.toNat ≤ 57

def digitVal (c : Char) : Nat := c.toNat - 48

def digitsVal (l : List Char) : Nat :=
  l.foldl (fun a c => 10 * a + digitVal c) 0

def allDigits (l : List Char) : Bool := l.all isDigitChar

/-- Syntactic part of `strconv.Atoi`: an optional sign followed by at least
one digit, nothing else. -/
def atoiParse : List Char → Option Int
  | [] => none
  | c :: rest =>
    if c = '-' then
      if rest ≠ [] ∧ allDigits rest then some (-(digitsVal rest : Int))
      else none
    else if c = '+' then
      if rest ≠ [] ∧ allDigits rest then some ((digitsVal rest : Int))
      else none
    else if allDigits (c :: rest) then some ((digitsVal (c :: rest) : Int))
    else none

def int64Min : Int := -9223372036854775808

def int64Max : Int := 9223372036854775807

def clamp64 (i : Int) : Int := max int64Min (min int64Max i)

/-- The value returned by Go `strconv.Atoi`: 0 on syntax error, the clamped
extreme on range error, the parsed value otherwise.  (The error return is
discarded by the caller.) -/
def atoiGo (l : List Char) : Int :=
  match atoiParse l with
  | none => 0
  | some i => clamp64 i

/-- Final stage of `UnmarshalClientMessage`: `out.origArguments` has been
assigned the tail and `parseOrigArguments` runs `json.Unmarshal`, which
leaves `Arguments` untouched on a JSON error. -/
def unmParseArgs {J : Type} (parseJ : List Char → Option J)
    (out : ClientMessage J) (idPart cmdPart tail : List Char) :
    ClientMessage J × Option UnmarshalErr :=
  match parseJ tail with
  | some v =>
    ({ out with
        MessageID := atoiGo idPart, Command := cmdPart,
        Arguments := some v, origArguments := tail }, none)
  | none =>
    ({ out with
        MessageID := atoiGo idPart, Command := cmdPart,
        origArguments := tail }, some UnmarshalErr.jsonError)

/-- `UnmarshalClientMessage` after the first space was found: parse the id
and reject `< -1` or `= 0` (before writing `out.MessageID`); with no second
space, the remainder is the command and the arguments are nil; otherwise
split off the command and parse the tail. -/
def unmAfterId {J : Type} (parseJ : List Char → Option J)
    (out : ClientMessage J) (idPart rest1 : List Char) :
    ClientMessage J × Option UnmarshalErr :=
  if atoiGo idPart < -1 ∨ atoiGo idPart = 0 then
    (out, some UnmarshalErr.protocolErrorNegativeID)
  else
    match splitFirstSpace rest1 with
    | none =>
      ({ out with
          MessageID := atoiGo idPart, Command := rest1,
          Arguments := none }, none)
    | some (cmdPart, tail) => unmParseArgs parseJ out idPart cmdPart tail

/-- `UnmarshalClientMessage`.  Mirrors the Go control flow: reject with
`ProtocolError` when the frame has no space, otherwise continue with the id
and the remainder.  The previous contents of `out` persist in every field
not assigned before the point of failure. -/
def UnmarshalClientMessage {J : Type} (parseJ : List Char → Option J)
    (out : ClientMessage J) (data : List Char) :
    ClientMessage J × Option UnmarshalErr :=
  match splitFirstSpace data with
  | none => (out, some UnmarshalErr.protocolError)
  | some (idPart, rest1) => unmAfterId parseJ out idPart rest1

/-- Decimal digits of `n`, most significant first (`fmt.Sprintf("%d", _)`
for the non-negative part). -/
def natToChars (n : Nat) : List Char :=
  if _h : n < 10 then [digitChar n]
  else natToChars (n / 10) ++ [digitChar (n % 10)]
  termination_by n
  decreasing_by
    exact Nat.div_lt_self (by omega) (by decide)

/-- `fmt.Sprintf("%d", i)` for an int64. -/
def intToChars (i : Int) : List Char :=
  if i < 0 then '-' :: natToChars i.natAbs else natToChars i.toNat

def okChars : List Char := ['o', 'k']

/-- `MarshalClientMessage`: `none` models the panic on a message whose
command and id are both empty/zero; otherwise a missing command becomes
`ok`, a missing id becomes `-1`, and the frame is the id, the command and
(when arguments are present) the marshalled arguments joined by single
spaces. -/
def MarshalClientMessage {J : Type} (marshalJ : J → List Char)
    (msg : ClientMessage J) : Option (List Char) :=
  if msg.Command = [] ∧ msg.MessageID = 0 then none
  else
    match msg.Arguments with
    | some a =>
      some (intToChars (if msg.MessageID = 0 then -1 else msg.MessageID) ++
        spaceChar :: ((if msg.Command = [] then okChars else msg.Command) ++
          spaceChar :: marshalJ a))
    | none =>
      some (intToChars (if msg.MessageID = 0 then -1 else msg.MessageID) ++
        spaceChar :: (if msg.Command = [] then okChars else msg.Command))

/-- One iteration of the reader goroutine's loop: decode the packet into the
persistent `msg` variable (ignoring the decode error), then forward `msg` to
the supervisor unless its id field is 0. -/
def readerStep {J : Type} (parseJ : List Char → Option J)
    (st : ClientMessage J × List (ClientMessage J)) (packet : List Char) :
    ClientMessage J × List (ClientMessage J) :=
  ((UnmarshalClientMessage parseJ st.1 packet).1,
    if (UnmarshalClientMessage parseJ st.1 packet).1.MessageID = 0 then st.2
    else st.2 ++ [(UnmarshalClientMessage parseJ st.1 packet).1])

/-- The reader goroutine over a sequence of received text frames, starting
from the zero-valued `msg`; returns the final `msg` and the list of messages
forwarded to the supervisor. -/
def readerRun {J : Type} (parseJ : List Char → Option J)
    (packets : List (List Char)) :
    ClientMessage J × List (ClientMessage J) :=
  packets.foldl (readerStep parseJ) (zeroMessage J, [])

/-- A well-formed wire message: a client id (strictly positive) or the
server-initiated sentinel -1, within int64 range, and a non-empty command
containing no space. -/
def WellFormedMsg {J : Type} (m : ClientMessage J) : Prop :=
  (m.MessageID = -1 ∨ 0 < m.MessageID) ∧ m.MessageID ≤ int64Max ∧
    m.Command ≠ [] ∧ ∀ c ∈ m.Command, c ≠ spaceChar

/-- A concrete argument codec (standing in for `encoding/json` on a
two-value argument universe) used to instantiate the parameterised codec
theorems on closed inputs. -/
def boolMarshal : Bool → List Char
  | true => ['t', 'r', 'u', 'e']
  | false => ['f']

def boolParse : List Char → Option Bool
  | ['t', 'r', 'u', 'e'] => some true
  | ['f'] => some false
  | _ => none

/-
Typed argument views.  After `json.Unmarshal` into `interface{}`,
`cm.Arguments` holds nil, bool, float64, string, []interface{} or
map[string]interface{}; JSON numbers come out as float64.  Every float64
value is an exact rational, so numbers are modelled as rationals, and the
Go conversion `int64(num)` is truncation toward zero. -/

inductive GoJSON
  | b (v : Bool)
  | num (q : ℚ)
  | s (str : List Char)
  | arr (elems : List GoJSON)
  | obj (fields : List (List Char × GoJSON))

inductive ArgErr
  | ExpectedSingleString
  | ExpectedSingleInt
  | ExpectedTwoStrings
  | ExpectedStringAndInt
  | ExpectedStringAndBool
  | ExpectedStringAndIntGotFloat
deriving DecidableEq

/-- `ArgumentsAsInt`: type-assert the arguments to float64; on failure
return `ExpectedSingleInt`; on success return `int64(num)` (truncation
toward zero) with no integrality check. -/
def ArgumentsAsInt (cm : ClientMessage GoJSON) : Int × Option ArgErr :=
  match cm.Arguments with
  | some (GoJSON.num q) => (Int.tdiv q.num (q.den : Int), none)
  | _ => (0, some ArgErr.ExpectedSingleInt)

/-
Supervisor ping-miss discipline.  The supervisor's select loop is embedded
by its effect on `client.pingCount` and on the close decision: a 1-minute
tick (no other channel activity) increments the counter and closes with
`CloseTimedOut` when it reaches 5; the `SetPongHandler` callback resets the
counter to 0 on any pong; the other select branches (inbound client
message, outbound server message) leave the counter alone.  After a close
the loop has exited, so the state freezes.
-/

def closeTimedOutText : String := "no ping replies for 5 minutes"

structure SupPingState where
  pingCount : Nat
  closedReason : Option String
deriving DecidableEq

inductive SupEvent
  | tick
  | pong
  | clientMsg
  | serverMsg
deriving DecidableEq

def supStep (s : SupPingState) (ev : SupEvent) : SupPingState :=
  if s.closedReason.isSome then s
  else
    match ev with
    | SupEvent.tick =>
      if s.pingCount + 1 = 5 then
        { pingCount := s.pingCount + 1,
          closedReason := some closeTimedOutText }
      else { pingCount := s.pingCount + 1, closedReason := none }
    | SupEvent.pong => { s with pingCount := 0 }
    | _ => s

def supRun (evs : List SupEvent) : SupPingState :=
  evs.foldl supStep { pingCount := 0, closedReason := none }

/-- Number of ticks since the most recent pong in the trace (consecutive
unacknowledged ticks at its end). -/
def ticksSinceLastPong (evs : List SupEvent) : Nat :=
  evs.foldl
    (fun n ev =>
      match ev with
      | SupEvent.tick => n + 1
      | SupEvent.pong => 0
      | _ => n) 0

theorem mem_insertFound (f : List Endpoint) (a e : Endpoint) :
    a ∈ insertFound f e ↔ a ∈ f ∨ a = e := by
  unfold insertFound
  by_cases h : e ∈ f
  · simp only [if_pos h]
    constructor
    · exact Or.inl
    · rintro (h1 | rfl)
      · exact h1
      · exact h
  · simp [if_neg h, List.mem_append]

theorem nodup_insertFound (f : List Endpoint) (e : Endpoint)
    (hf : f.Nodup) : (insertFound f e).Nodup := by
  unfold insertFound
  by_cases h : e ∈ f
  · simpa [if_pos h] using hf
  · rw [if_neg h]
    refine List.Nodup.append hf (List.nodup_singleton e) ?_
    intro x hx hx'
    rcases List.mem_singleton.mp hx' with rfl
    exact h hx

theorem mem_foldl_insertFound (ms : List Endpoint) (f : List Endpoint)
    (a : Endpoint) :
    a ∈ ms.foldl insertFound f ↔ a ∈ f ∨ a ∈ ms := by
  induction ms generalizing f with
  | nil => simp
  | cons x xs ih =>
    simp only [List.foldl_cons, ih, mem_insertFound, List.mem_cons]
    tauto

theorem nodup_foldl_insertFound (ms : List Endpoint) (f : List Endpoint)
    (hf : f.Nodup) : (ms.foldl insertFound f).Nodup := by
  induction ms generalizing f with
  | nil => exact hf
  | cons x xs ih => exact ih _ (nodup_insertFound f x hf)

theorem mem_collectMulti_aux (m : ChanMap) (channels : List String)
    (f : List Endpoint) (a : Endpoint) :
    a ∈ channels.foldl
        (fun found ch =>
          match mapGet m ch with
          | none => found
          | some members => members.foldl insertFound found) f ↔
      a ∈ f ∨ ∃ ch ∈ channels,
        ∃ members, mapGet m ch = some members ∧ a ∈ members := by
  induction channels generalizing f with
  | nil => simp
  | cons c cs ih =>
    simp only [List.foldl_cons]
    cases h : mapGet m c with
    | none =>
      rw [ih]
      constructor
      · rintro (hf | hcs)
        · exact Or.inl hf
        · rcases hcs with ⟨ch, hch, members, hm, ha⟩
          exact Or.inr ⟨ch, List.mem_cons_of_mem c hch, members, hm, ha⟩
      · rintro (hf | ⟨ch, hch, members, hm, ha⟩)
        · exact Or.inl hf
        · rcases List.mem_cons.mp hch with rfl | hch'
          · rw [h] at hm; exact absurd hm (by simp)
          · exact Or.inr ⟨ch, hch', members, hm, ha⟩
    | some members0 =>
      rw [ih]
      constructor
      · rintro (hf | hcs)
        · rcases (mem_foldl_insertFound members0 f a).mp hf with hf' | hm0
          · exact Or.inl hf'
          · exact Or.inr ⟨c, List.mem_cons_self c cs, members0, h, hm0⟩
        · rcases hcs with ⟨ch, hch, members, hm, ha⟩
          exact Or.inr ⟨ch, List.mem_cons_of_mem c hch, members, hm, ha⟩
      · rintro (hf | ⟨ch, hch, members, hm, ha⟩)
        · exact Or.inl ((mem_foldl_insertFound members0 f a).mpr (Or.inl hf))
        · rcases List.mem_cons.mp hch with rfl | hch'
          · rw [h] at hm
            injection hm with hm
            subst hm
            exact Or.inl
              ((mem_foldl_insertFound members0 f a).mpr (Or.inr ha))
          · exact Or.inr ⟨ch, hch', members, hm, ha⟩

theorem nodup_collectMulti (m : ChanMap) (channels : List String) :
    (collectMulti m channels).Nodup := by
  unfold collectMulti
  suffices h : ∀ f : List Endpoint, f.Nodup →
      (channels.foldl
        (fun found ch =>
          match mapGet m ch with
          | none => found
          | some members => members.foldl insertFound found) f).Nodup by
    exact h [] List.nodup_nil
  induction channels with
  | nil => intro f hf; exact hf
  | cons c cs ih =>
    intro f hf
    simp only [List.foldl_cons]
    cases h : mapGet m c with
    | none => exact ih f hf
    | some members => exact ih _ (nodup_foldl_insertFound members f hf)

/-- C1: `PublishToMultiple` enqueues the message at most once per distinct
endpoint (the list of endpoints sent to has no duplicates), the endpoints
sent to are exactly the union of the member lists of the listed topics, and
the returned count is the number of distinct endpoints enqueued to. -/
theorem C1_publishToMultiple_dedup (m : ChanMap) (channels : List String) :
    (PublishToMultiple m channels).1.Nodup ∧
    (∀ a : Endpoint,
      a ∈ (PublishToMultiple m channels).1 ↔
        ∃ ch ∈ channels,
          ∃ members, mapGet m ch = some members ∧ a ∈ members) ∧
    (PublishToMultiple m channels).2 =
      (PublishToMultiple m channels).1.length := by
  refine ⟨nodup_collectMulti m channels, ?_, rfl⟩
  intro a
  have := mem_collectMulti_aux m channels [] a
  simpa [collectMulti, PublishToMultiple] using this

theorem sendsOk_acq (ok : List (LockId × LockMode) → Bool)
    (h : List (LockId × LockMode)) (l : LockId) (mo : LockMode)
    (rest : List PubEv) :
    sendsOk ok h (PubEv.acq l mo :: rest) = sendsOk ok ((l, mo) :: h) rest :=
  rfl

theorem sendsOk_rel (ok : List (LockId × LockMode) → Bool)
    (h : List (LockId × LockMode)) (l : LockId) (rest : List PubEv) :
    sendsOk ok h (PubEv.rel l :: rest) =
      sendsOk ok (h.eraseP (fun p => decide (p.1 = l))) rest :=
  rfl

theorem sendsOk_send (ok : List (LockId × LockMode) → Bool)
    (h : List (LockId × LockMode)) (e : Endpoint) (rest : List PubEv) :
    sendsOk ok h (PubEv.send e :: rest) = (ok h && sendsOk ok h rest) :=
  rfl

theorem heldAfter_cons (h : List (LockId × LockMode)) (ev : PubEv)
    (rest : List PubEv) :
    heldAfter h (ev :: rest) = heldAfter (heldStep h ev) rest :=
  rfl

theorem eraseP_head (l : LockId) (mo : LockMode)
    (h : List (LockId × LockMode)) :
    List.eraseP (fun p => decide (p.1 = l)) ((l, mo) :: h) = h := by
  simp [List.eraseP_cons]

theorem sendsOk_append (ok : List (LockId × LockMode) → Bool)
    (h : List (LockId × LockMode)) (a b : List PubEv) :
    sendsOk ok h (a ++ b) =
      (sendsOk ok h a && sendsOk ok (heldAfter h a) b) := by
  induction a generalizing h with
  | nil => simp [sendsOk, heldAfter]
  | cons ev rest ih =>
    cases ev with
    | acq l mo =>
      rw [List.cons_append, sendsOk_acq, sendsOk_acq, heldAfter_cons, ih]
      rfl
    | rel l =>
      rw [List.cons_append, sendsOk_rel, sendsOk_rel, heldAfter_cons, ih]
      rfl
    | send e =>
      rw [List.cons_append, sendsOk_send, sendsOk_send, ih, heldAfter_cons]
      rw [Bool.and_assoc]
      rfl

theorem sendsOk_map_send (ok : List (LockId × LockMode) → Bool)
    (h : List (LockId × LockMode)) (xs : List Endpoint)
    (hok : ok h = true) :
    sendsOk ok h (xs.map PubEv.send) = true := by
  induction xs with
  | nil => rfl
  | cons x xs ih => simp [List.map_cons, sendsOk_send, hok, ih]

theorem heldAfter_map_send (h : List (LockId × LockMode))
    (xs : List Endpoint) :
    heldAfter h (xs.map PubEv.send) = h := by
  induction xs with
  | nil => rfl
  | cons x xs ih => simpa [List.map_cons, heldAfter_cons, heldStep] using ih

theorem multiLockPairs_ok (ok : List (LockId × LockMode) → Bool)
    (m : ChanMap) (channels : List String)
    (h : List (LockId × LockMode)) :
    sendsOk ok h (multiLockPairs m channels) = true ∧
    heldAfter h (multiLockPairs m channels) = h := by
  induction channels generalizing h with
  | nil => exact ⟨rfl, rfl⟩
  | cons c cs ih =>
    unfold multiLockPairs
    rw [List.flatMap_cons]
    cases hm : mapGet m c with
    | none =>
      rw [List.nil_append]
      exact ih h
    | some members =>
      have hpair :
          heldStep (heldStep h (PubEv.acq (LockId.record c) LockMode.r))
            (PubEv.rel (LockId.record c)) = h := by
        show List.eraseP (fun p => decide (p.1 = LockId.record c))
          ((LockId.record c, LockMode.r) :: h) = h
        exact eraseP_head _ _ _
      constructor
      · rw [List.cons_append, List.cons_append, sendsOk_acq, sendsOk_rel,
          eraseP_head]
        exact (ih h).1
      · rw [List.cons_append, List.cons_append, heldAfter_cons,
          heldAfter_cons, hpair]
        exact (ih h).2

/-- C2 counterexample: in `PublishToChannel`, on a topic map holding a single
record with one member, the send to that member happens while the registry
read lock and the record read lock are both held, so publish fan-out is not
lock-free during sends as the claim states for all three publish paths. -/
theorem C2_counterexample :
    sendsOk lockFree []
      (PublishToChannelTrace [("c", some [0])] "c") = false := by
  decide

/-- C2 (amended): only `PublishToMultiple` snapshots the endpoints and sends
with no lock held; `PublishToChannel` and `PublishToAll` perform their sends
while holding locks, though only read-mode locks (registry read plus record
read, respectively the global set's read lock), never a write lock. -/
theorem C2_amended (m : ChanMap) (channels : List String) (ch : String)
    (g : List Endpoint) :
    sendsOk lockFree [] (PublishToMultipleTrace m channels) = true ∧
    sendsOk readOnlyHeld [] (PublishToChannelTrace m ch) = true ∧
    sendsOk readOnlyHeld [] (PublishToAllTrace g) = true := by
  refine ⟨?_, ?_, ?_⟩
  · unfold PublishToMultipleTrace
    rw [sendsOk_acq, sendsOk_append]
    rcases multiLockPairs_ok lockFree m channels
        [(LockId.registry, LockMode.r)] with ⟨h1, h2⟩
    rw [h1, Bool.true_and, h2, sendsOk_rel, eraseP_head]
    exact sendsOk_map_send lockFree [] (collectMulti m channels) rfl
  · unfold PublishToChannelTrace
    cases hm : mapGet m ch with
    | none =>
      rw [List.nil_append, sendsOk_acq, sendsOk_rel, eraseP_head]
      rfl
    | some members =>
      rw [List.cons_append, sendsOk_acq, sendsOk_acq, List.append_assoc,
        sendsOk_append]
      have hro :
          readOnlyHeld
            [(LockId.record ch, LockMode.r),
             (LockId.registry, LockMode.r)] = true := rfl
      rw [sendsOk_map_send readOnlyHeld
          [(LockId.record ch, LockMode.r), (LockId.registry, LockMode.r)]
          members hro,
        Bool.true_and, heldAfter_map_send, List.singleton_append,
        sendsOk_rel, eraseP_head, sendsOk_rel, eraseP_head]
      rfl
  · unfold PublishToAllTrace
    rw [sendsOk_acq, sendsOk_append]
    rw [sendsOk_map_send readOnlyHeld [(LockId.globalSet, LockMode.r)] g rfl,
      Bool.true_and, heldAfter_map_send, sendsOk_rel, eraseP_head]
    rfl

theorem mapLookup_mapSet (m : ChanMap) (k k' : String)
    (v : Option (List Endpoint)) :
    mapLookup (mapSet m k v) k' =
      if k' = k then some v else mapLookup m k' := by
  induction m with
  | nil => by_cases h : k' = k <;> simp [mapSet, mapLookup, h]
  | cons p rest ih =>
    obtain ⟨k0, v0⟩ := p
    by_cases hk : k0 = k
    · subst hk
      by_cases h : k' = k0 <;> simp [mapSet, mapLookup, h]
    · by_cases h : k' = k0
      · have hk' : ¬ k' = k := by rw [h]; exact hk
        simp [mapSet, mapLookup, hk, h, hk']
      · simp [mapSet, mapLookup, hk, h, ih]

theorem mapGet_mapSet (m : ChanMap) (k k' : String)
    (v : Option (List Endpoint)) :
    mapGet (mapSet m k v) k' = if k' = k then v else mapGet m k' := by
  unfold mapGet
  rw [mapLookup_mapSet]
  by_cases h : k' = k <;> simp [h]

theorem lookup_some_mem_keys (m : ChanMap) (k : String)
    (v : Option (List Endpoint)) (h : mapLookup m k = some v) :
    k ∈ m.map Prod.fst := by
  induction m with
  | nil => simp [mapLookup] at h
  | cons p rest ih =>
    obtain ⟨k0, v0⟩ := p
    by_cases hk : k = k0
    · simp [hk]
    · simp only [mapLookup, if_neg hk] at h
      exact List.mem_cons_of_mem _ (ih h)

/-- C3: for a topic absent from the topic map (or stored as a nil record),
`SubscribeChannel` (via `_subscribeWhileRlocked`) installs a record whose
member list is exactly the one-element list holding the client's endpoint,
any record installed for a previously-absent topic is that one-element
(hence non-empty) list, and the new-topic notice is spawned exactly when the
record was actually created. -/
theorem C3_subscribe_creates_populated (m : ChanMap) (client : ClientInfo)
    (name : String) :
    (mapGet m name = none →
      mapGet (SubscribeChannel m client name).1 name =
        some [client.MessageChannel]) ∧
    ((SubscribeChannel m client name).2 = true ↔ mapGet m name = none) ∧
    (∀ k l, mapGet m k = none →
      mapGet (SubscribeChannel m client name).1 k = some l →
        l = [client.MessageChannel]) := by
  cases hm : mapGet m name with
  | none =>
    have hres : SubscribeChannel m client name =
        (mapSet m name (some [client.MessageChannel]), true) := by
      unfold SubscribeChannel subscribeWhileRlocked
      rw [hm]
    refine ⟨?_, ?_, ?_⟩
    · intro _
      rw [hres, mapGet_mapSet]
      simp
    · rw [hres]
      simp
    · intro k l hk hresk
      rw [hres, mapGet_mapSet] at hresk
      by_cases hkn : k = name
      · rw [if_pos hkn] at hresk
        injection hresk with h
        exact h.symm
      · rw [if_neg hkn, hk] at hresk
        exact absurd hresk (by simp)
  | some members =>
    have hres : SubscribeChannel m client name =
        (mapSet m name
          (some (AddToSliceC members client.MessageChannel)), false) := by
      unfold SubscribeChannel subscribeWhileRlocked
      rw [hm]
    refine ⟨?_, ?_, ?_⟩
    · intro h
      exact absurd h (by simp)
    · rw [hres]
      simp
    · intro k l hk hresk
      rw [hres, mapGet_mapSet] at hresk
      by_cases hkn : k = name
      · rw [hkn] at hk
        rw [hk] at hm
        exact absurd hm (by simp)
      · rw [if_neg hkn, hk] at hresk
        exact absurd hresk (by simp)

/-- C3 witness: subscribing endpoint 5 to the fresh topic `t` on the empty
map creates the record `[5]` and spawns the new-topic notice. -/
theorem C3_witness :
    mapGet (SubscribeChannel [] ⟨5, [], []⟩ "t").1 "t" = some [5] ∧
    (SubscribeChannel [] ⟨5, [], []⟩ "t").2 = true := by
  have h := C3_subscribe_creates_populated [] ⟨5, [], []⟩ "t"
  exact ⟨h.1 rfl, h.2.1.mpr rfl⟩

theorem janitor_keeps (m : ChanMap) (k : String) (l : List Endpoint)
    (h : mapLookup m k = some (some l)) (hl : l ≠ []) :
    mapLookup (janitorTick m).1 k = some (some l) := by
  induction m with
  | nil => simp [mapLookup] at h
  | cons p rest ih =>
    obtain ⟨key, val⟩ := p
    by_cases hk : k = key
    · subst hk
      simp only [mapLookup, if_pos rfl] at h
      injection h with h
      subst h
      cases l with
      | nil => exact absurd rfl hl
      | cons a as =>
        show mapLookup (janitorTick ((k, some (a :: as)) :: rest)).1 k = _
        simp only [janitorTick, List.isEmpty_cons]
        simp [mapLookup]
    · simp only [mapLookup, if_neg hk] at h
      have htail := ih h
      simp only [janitorTick]
      cases val with
      | none => exact htail
      | some members =>
        by_cases hE : members.isEmpty
        · simp only [if_pos hE]
          exact htail
        · simp only [if_neg hE]
          simp only [mapLookup, if_neg hk]
          exact htail

theorem janitor_survivors (m : ChanMap) (hnd : (m.map Prod.fst).Nodup) :
    ∀ k v, mapLookup (janitorTick m).1 k = some v →
      ∃ l, v = some l ∧ l ≠ [] ∧ mapLookup m k = some v := by
  induction m with
  | nil => intro k v h; simp [janitorTick, mapLookup] at h
  | cons p rest ih =>
    obtain ⟨key, val⟩ := p
    rw [List.map_cons, List.nodup_cons] at hnd
    obtain ⟨hkey, hrest⟩ := hnd
    intro k v h
    have hdrop : mapLookup (janitorTick rest).1 k = some v →
        ∃ l, v = some l ∧ l ≠ [] ∧
          mapLookup ((key, val) :: rest) k = some v := by
      intro h'
      obtain ⟨l, hv, hl, hlook⟩ := ih hrest k v h'
      refine ⟨l, hv, hl, ?_⟩
      have hk : ¬ k = key := by
        intro hkk
        subst hkk
        exact hkey (lookup_some_mem_keys rest k v hlook)
      simp only [mapLookup, if_neg hk]
      exact hlook
    cases val with
    | none =>
      simp only [janitorTick] at h
      exact hdrop h
    | some members =>
      by_cases hE : members.isEmpty
      · simp only [janitorTick, if_pos hE] at h
        exact hdrop h
      · simp only [janitorTick, if_neg hE] at h
        by_cases hk : k = key
        · subst hk
          simp only [mapLookup, if_pos rfl] at h
          injection h with h
          subst h
          refine ⟨members, rfl, ?_, by simp [mapLookup]⟩
          intro hnil
          subst hnil
          exact hE rfl
        · simp only [mapLookup, if_neg hk] at h
          exact hdrop h

theorem janitor_cleaned (m : ChanMap) (hnd : (m.map Prod.fst).Nodup) :
    ∀ k, k ∈ (janitorTick m).2 ↔
      (mapLookup m k = some none ∨ mapLookup m k = some (some [])) := by
  induction m with
  | nil => intro k; simp [janitorTick, mapLookup]
  | cons p rest ih =>
    obtain ⟨key, val⟩ := p
    rw [List.map_cons, List.nodup_cons] at hnd
    obtain ⟨hkey, hrest⟩ := hnd
    intro k
    have htail := ih hrest k
    have htail_of_ne : ¬ k = key →
        (k ∈ (janitorTick rest).2 ↔
          (mapLookup ((key, val) :: rest) k = some none ∨
           mapLookup ((key, val) :: rest) k = some (some []))) := by
      intro hk
      simp only [mapLookup, if_neg hk]
      exact htail
    have hkey_not_tail : key ∉ (janitorTick rest).2 := by
      intro hmem
      rcases (ih hrest key).mp hmem with h | h
      · exact hkey (lookup_some_mem_keys rest key none h)
      · exact hkey (lookup_some_mem_keys rest key (some []) h)
    cases val with
    | none =>
      simp only [janitorTick]
      by_cases hk : k = key
      · subst hk
        simp [mapLookup]
      · simp only [List.mem_cons]
        rw [htail_of_ne hk]
        constructor
        · rintro (rfl | h)
          · exact absurd rfl hk
          · exact h
        · exact Or.inr
    | some members =>
      by_cases hE : members.isEmpty
      · have hmem : members = [] := by
          cases members with
          | nil => rfl
          | cons a as => simp [List.isEmpty_cons] at hE
        subst hmem
        simp only [janitorTick, if_pos hE]
        by_cases hk : k = key
        · subst hk
          simp [mapLookup]
        · simp only [List.mem_cons]
          rw [htail_of_ne hk]
          constructor
          · rintro (rfl | h)
            · exact absurd rfl hk
            · exact h
          · exact Or.inr
      · simp only [janitorTick, if_neg hE]
        by_cases hk : k = key
        · subst hk
          simp only [mapLookup, if_pos rfl]
          constructor
          · intro hmem
            exact absurd hmem hkey_not_tail
          · rintro (h | h)
            · simp at h
            · simp at h
              subst h
              simp at hE
        · exact htail_of_ne hk

/-- C4: one janitor tick keeps exactly the records with at least one member,
unchanged; it removes exactly the entries that are nil or have an empty
member list, reporting the removed keys; and the cleanup notice to the
backend is sent exactly when at least one record was removed, carrying the
removed topic names as a single batch. -/
theorem C4_janitorTick (m : ChanMap) (hnd : (m.map Prod.fst).Nodup) :
    (∀ k l, mapLookup m k = some (some l) → l ≠ [] →
      mapLookup (janitorTick m).1 k = some (some l)) ∧
    (∀ k v, mapLookup (janitorTick m).1 k = some v →
      ∃ l, v = some l ∧ l ≠ [] ∧ mapLookup m k = some v) ∧
    (∀ k, k ∈ (janitorTick m).2 ↔
      (mapLookup m k = some none ∨ mapLookup m k = some (some []))) ∧
    ((janitorTick m).2 ≠ [] →
      janitorNotice (janitorTick m).2 = some (janitorTick m).2) ∧
    ((janitorTick m).2 = [] → janitorNotice (janitorTick m).2 = none) := by
  refine ⟨fun k l h hl => janitor_keeps m k l h hl,
    janitor_survivors m hnd, janitor_cleaned m hnd, ?_, ?_⟩
  · intro h
    unfold janitorNotice
    rw [if_neg ?_]
    intro hE
    exact h (List.isEmpty_iff.mp hE)
  · intro h
    unfold janitorNotice
    rw [h]
    rfl

/-- C4 witness: on the map `a ↦ [1], b ↦ [], c ↦ nil`, one tick keeps `a`
unchanged, reaps `b` and `c`, and sends the batch `[b, c]`. -/
theorem C4_witness :
    mapLookup
      (janitorTick [("a", some [1]), ("b", some []), ("c", none)]).1 "a" =
        some (some [1]) ∧
    "b" ∈ (janitorTick [("a", some [1]), ("b", some []), ("c", none)]).2 ∧
    janitorNotice
      (janitorTick [("a", some [1]), ("b", some []), ("c", none)]).2 =
        some ["b", "c"] := by
  have h := C4_janitorTick [("a", some [1]), ("b", some []), ("c", none)]
    (by decide)
  refine ⟨h.1 "a" [1] (by decide) (by decide),
    (h.2.2.1 "b").mpr (Or.inr (by decide)), ?_⟩
  rw [h.2.2.2.1 (by decide)]
  decide

theorem not_mem_removeFromSliceC (l : List Endpoint) (e : Endpoint) :
    e ∉ RemoveFromSliceC l e := by
  intro h
  rcases List.mem_filter.mp h with ⟨_, hp⟩
  simp at hp

theorem unsubAllFold_clears (e : Endpoint) (chs : List String) :
    ∀ m : ChanMap,
      (∀ ch l, mapGet m ch = some l → e ∈ l → ch ∈ chs) →
      ∀ ch l, mapGet (unsubAllFold e m chs) ch = some l → e ∉ l := by
  induction chs with
  | nil =>
    intro m hcov ch l hm he
    exact absurd (hcov ch l hm he) (List.not_mem_nil ch)
  | cons c cs ih =>
    intro m hcov ch l hm he
    have hstep : unsubAllFold e m (c :: cs) =
        unsubAllFold e (unsubStep e m c) cs := rfl
    rw [hstep] at hm
    refine ih (unsubStep e m c) ?_ ch l hm he
    intro ch' l' hm' he'
    cases hgc : mapGet m c with
    | none =>
      have heq : unsubStep e m c = m := by
        unfold unsubStep
        rw [hgc]
      rw [heq] at hm'
      rcases List.mem_cons.mp (hcov ch' l' hm' he') with rfl | h
      · rw [hgc] at hm'
        exact absurd hm' (by simp)
      · exact h
    | some members =>
      have heq : unsubStep e m c =
          mapSet m c (some (RemoveFromSliceC members e)) := by
        unfold unsubStep
        rw [hgc]
      rw [heq, mapGet_mapSet] at hm'
      by_cases hc : ch' = c
      · rw [if_pos hc] at hm'
        injection hm' with h
        subst h
        exact absurd he' (not_mem_removeFromSliceC members e)
      · rw [if_neg hc] at hm'
        rcases List.mem_cons.mp (hcov ch' l' hm' he') with h | h
        · exact absurd h hc
        · exact h

/-- C5: for a session whose `CurrentChannels` lists every topic whose record
contains its endpoint, `UnsubscribeAll` empties `CurrentChannels` and the
pending subscription backlog, and afterwards the endpoint appears in no
subscriber set: not in the global set and not in any topic record. -/
theorem C5_unsubscribeAll (st : PubSubState) (client : ClientInfo)
    (hcov : ∀ ch l, mapGet st.chat ch = some l →
      client.MessageChannel ∈ l → ch ∈ client.CurrentChannels) :
    (UnsubscribeAll st client).2.CurrentChannels = [] ∧
    (UnsubscribeAll st client).2.PendingSubscriptionsBacklog = [] ∧
    client.MessageChannel ∉ (UnsubscribeAll st client).1.globalSubs ∧
    (∀ ch l, mapGet (UnsubscribeAll st client).1.chat ch = some l →
      client.MessageChannel ∉ l) := by
  refine ⟨rfl, rfl, ?_, ?_⟩
  · exact not_mem_removeFromSliceC st.globalSubs client.MessageChannel
  · intro ch l hm
    exact unsubAllFold_clears client.MessageChannel client.CurrentChannels
      st.chat hcov ch l hm

/-- C5 witness: a client with endpoint 7 subscribed to topic `a` (also in
the global set, with a pending backlog entry) is fully withdrawn by
`UnsubscribeAll`. -/
theorem C5_unsubscribeAll_witness :
    (UnsubscribeAll ⟨[("a", some [7])], [7]⟩
        ⟨7, ["a"], ["x"]⟩).2.CurrentChannels = [] ∧
    (UnsubscribeAll ⟨[("a", some [7])], [7]⟩
        ⟨7, ["a"], ["x"]⟩).2.PendingSubscriptionsBacklog = [] ∧
    (7 : Endpoint) ∉
      (UnsubscribeAll ⟨[("a", some [7])], [7]⟩ ⟨7, ["a"], ["x"]⟩).1.globalSubs ∧
    (∀ ch l,
      mapGet (UnsubscribeAll ⟨[("a", some [7])], [7]⟩
        ⟨7, ["a"], ["x"]⟩).1.chat ch = some l →
      (7 : Endpoint) ∉ l) := by
  apply C5_unsubscribeAll
  intro ch l hm he
  by_cases h : ch = "a"
  · rw [h]
    simp
  · simp [mapGet, mapLookup, h] at hm

theorem digitChar_spec : ∀ d : Nat, d < 10 →
    isDigitChar (digitChar d) = true ∧ digitVal (digitChar d) = d ∧
    digitChar d ≠ '-' ∧ digitChar d ≠ '+' ∧ digitChar d ≠ spaceChar := by
  decide

theorem natToChars_digits (n : Nat) :
    natToChars n ≠ [] ∧ allDigits (natToChars n) = true := by
  induction n using Nat.strong_induction_on with
  | _ n ih =>
    unfold natToChars
    by_cases h : n < 10
    · rw [dif_pos h]
      exact ⟨by simp, by simp [allDigits, (digitChar_spec n h).1]⟩
    · rw [dif_neg h]
      have h10 : n / 10 < n := Nat.div_lt_self (by omega) (by decide)
      obtain ⟨hne, hall⟩ := ih (n / 10) h10
      refine ⟨by simp, ?_⟩
      have hd : isDigitChar (digitChar (n % 10)) = true :=
        (digitChar_spec (n % 10) (Nat.mod_lt n (by omega))).1
      unfold allDigits
      rw [List.all_append]
      unfold allDigits at hall
      rw [hall]
      simp [hd]

theorem digitsVal_natToChars_aux (n : Nat) : ∀ a : Nat,
    (natToChars n).foldl (fun a c => 10 * a + digitVal c) a =
      a * 10 ^ (natToChars n).length + n := by
  induction n using Nat.strong_induction_on with
  | _ n ih =>
    intro a
    unfold natToChars
    by_cases h : n < 10
    · rw [dif_pos h]
      simp [List.foldl, (digitChar_spec n h).2.1]
      ring
    · rw [dif_neg h]
      have h10 : n / 10 < n := Nat.div_lt_self (by omega) (by decide)
      rw [List.foldl_append, ih (n / 10) h10 a]
      have hdm : 10 * (n / 10) + n % 10 = n := Nat.div_add_mod n 10
      simp only [List.foldl, (digitChar_spec (n % 10)
        (Nat.mod_lt n (by omega))).2.1, List.length_append,
        List.length_singleton]
      calc 10 * (a * 10 ^ (natToChars (n / 10)).length + n / 10) + n % 10
          = a * 10 ^ ((natToChars (n / 10)).length + 1) +
              (10 * (n / 10) + n % 10) := by ring
        _ = a * 10 ^ ((natToChars (n / 10)).length + 1) + n := by rw [hdm]

theorem digitsVal_natToChars (n : Nat) : digitsVal (natToChars n) = n := by
  have h := digitsVal_natToChars_aux n 0
  simpa [digitsVal] using h

theorem atoiParse_natToChars (n : Nat) :
    atoiParse (natToChars n) = some (n : Int) := by
  obtain ⟨hne, hall⟩ := natToChars_digits n
  cases hc : natToChars n with
  | nil => exact absurd hc hne
  | cons c rest =>
    rw [hc] at hall
    have hcd : isDigitChar c = true := by
      simp [allDigits] at hall
      exact hall.1
    have hcm : ¬ c = '-' := by
      intro e
      rw [e] at hcd
      exact absurd hcd (by decide)
    have hcp : ¬ c = '+' := by
      intro e
      rw [e] at hcd
      exact absurd hcd (by decide)
    show atoiParse (c :: rest) = some (n : Int)
    simp only [atoiParse]
    rw [if_neg hcm, if_neg hcp, if_pos hall]
    rw [← hc, digitsVal_natToChars]

theorem clamp64_id (i : Int) (h1 : int64Min ≤ i) (h2 : i ≤ int64Max) :
    clamp64 i = i := by
  unfold clamp64
  rw [min_eq_right h2, max_eq_right h1]

theorem atoiParse_intToChars (i : Int) :
    atoiParse (intToChars i) = some i := by
  unfold intToChars
  by_cases h : i < 0
  · rw [if_pos h]
    show atoiParse ('-' :: natToChars i.natAbs) = some i
    simp only [atoiParse, if_true]
    rw [if_pos ⟨(natToChars_digits _).1, (natToChars_digits _).2⟩]
    rw [digitsVal_natToChars]
    congr 1
    omega
  · rw [if_neg h, atoiParse_natToChars]
    congr 1
    omega

theorem atoiGo_intToChars (i : Int) (h1 : int64Min ≤ i) (h2 : i ≤ int64Max) :
    atoiGo (intToChars i) = i := by
  unfold atoiGo
  rw [atoiParse_intToChars]
  exact clamp64_id i h1 h2

theorem isDigitChar_ne_space (c : Char) (h : isDigitChar c = true) :
    c ≠ spaceChar := by
  intro e
  rw [e] at h
  exact absurd h (by decide)

theorem natToChars_no_space (n : Nat) :
    ∀ c ∈ natToChars n, c ≠ spaceChar := by
  intro c hc
  have hall := (natToChars_digits n).2
  simp [allDigits] at hall
  exact isDigitChar_ne_space c (hall c hc)

theorem intToChars_no_space (i : Int) :
    ∀ c ∈ intToChars i, c ≠ spaceChar := by
  intro c hc
  unfold intToChars at hc
  by_cases h : i < 0
  · rw [if_pos h] at hc
    rcases List.mem_cons.mp hc with rfl | hc'
    · decide
    · exact natToChars_no_space _ c hc'
  · rw [if_neg h] at hc
    exact natToChars_no_space _ c hc

theorem splitFirstSpace_no_space (l : List Char)
    (h : ∀ c ∈ l, c ≠ spaceChar) : splitFirstSpace l = none := by
  induction l with
  | nil => rfl
  | cons c rest ih =>
    unfold splitFirstSpace
    rw [if_neg (h c (List.mem_cons_self c rest)),
      ih (fun c' hc' => h c' (List.mem_cons_of_mem c hc'))]

theorem splitFirstSpace_append (A B : List Char)
    (h : ∀ c ∈ A, c ≠ spaceChar) :
    splitFirstSpace (A ++ spaceChar :: B) = some (A, B) := by
  induction A with
  | nil =>
    show splitFirstSpace (spaceChar :: B) = some ([], B)
    unfold splitFirstSpace
    rw [if_pos rfl]
  | cons c rest ih =>
    show splitFirstSpace (c :: (rest ++ spaceChar :: B)) = some (c :: rest, B)
    unfold splitFirstSpace
    rw [if_neg (h c (List.mem_cons_self c rest)),
      ih (fun c' hc' => h c' (List.mem_cons_of_mem c hc'))]

theorem unmarshal_no_space {J : Type} (parseJ : List Char → Option J)
    (out : ClientMessage J) (data : List Char)
    (h : splitFirstSpace data = none) :
    UnmarshalClientMessage parseJ out data =
      (out, some UnmarshalErr.protocolError) := by
  unfold UnmarshalClientMessage
  rw [h]

theorem unmarshal_split {J : Type} (parseJ : List Char → Option J)
    (out : ClientMessage J) (data idPart rest1 : List Char)
    (h : splitFirstSpace data = some (idPart, rest1)) :
    UnmarshalClientMessage parseJ out data =
      unmAfterId parseJ out idPart rest1 := by
  unfold UnmarshalClientMessage
  rw [h]

theorem unmAfterId_badid {J : Type} (parseJ : List Char → Option J)
    (out : ClientMessage J) (idPart rest1 : List Char)
    (h : atoiGo idPart < -1 ∨ atoiGo idPart = 0) :
    unmAfterId parseJ out idPart rest1 =
      (out, some UnmarshalErr.protocolErrorNegativeID) := by
  unfold unmAfterId
  rw [if_pos h]

theorem unmAfterId_nocmd {J : Type} (parseJ : List Char → Option J)
    (out : ClientMessage J) (idPart rest1 : List Char)
    (hg : ¬ (atoiGo idPart < -1 ∨ atoiGo idPart = 0))
    (h : splitFirstSpace rest1 = none) :
    unmAfterId parseJ out idPart rest1 =
      ({ out with
          MessageID := atoiGo idPart, Command := rest1,
          Arguments := none }, none) := by
  unfold unmAfterId
  rw [if_neg hg, h]

theorem unmAfterId_cmd {J : Type} (parseJ : List Char → Option J)
    (out : ClientMessage J) (idPart rest1 cmdPart tail : List Char)
    (hg : ¬ (atoiGo idPart < -1 ∨ atoiGo idPart = 0))
    (h : splitFirstSpace rest1 = some (cmdPart, tail)) :
    unmAfterId parseJ out idPart rest1 =
      unmParseArgs parseJ out idPart cmdPart tail := by
  unfold unmAfterId
  rw [if_neg hg, h]

theorem unmParseArgs_ok {J : Type} (parseJ : List Char → Option J)
    (out : ClientMessage J) (idPart cmdPart tail : List Char) (v : J)
    (h : parseJ tail = some v) :
    unmParseArgs parseJ out idPart cmdPart tail =
      ({ out with
          MessageID := atoiGo idPart, Command := cmdPart,
          Arguments := some v, origArguments := tail }, none) := by
  unfold unmParseArgs
  rw [h]

theorem unmParseArgs_err {J : Type} (parseJ : List Char → Option J)
    (out : ClientMessage J) (idPart cmdPart tail : List Char)
    (h : parseJ tail = none) :
    unmParseArgs parseJ out idPart cmdPart tail =
      ({ out with
          MessageID := atoiGo idPart, Command := cmdPart,
          origArguments := tail }, some UnmarshalErr.jsonError) := by
  unfold unmParseArgs
  rw [h]

/-- C6: the wire codec round-trips: for every well-formed message,
`UnmarshalClientMessage` applied to the frame produced by
`MarshalClientMessage` reconstructs the message's id, command and arguments
(given that the external JSON codec it is parameterised by round-trips). -/
theorem C6_roundtrip {J : Type} (marshalJ : J → List Char)
    (parseJ : List Char → Option J)
    (hrt : ∀ a : J, parseJ (marshalJ a) = some a)
    (m prior : ClientMessage J) (hwf : WellFormedMsg m) :
    ∃ frame, MarshalClientMessage marshalJ m = some frame ∧
      (UnmarshalClientMessage parseJ prior frame).2 = none ∧
      (UnmarshalClientMessage parseJ prior frame).1.MessageID =
        m.MessageID ∧
      (UnmarshalClientMessage parseJ prior frame).1.Command = m.Command ∧
      (UnmarshalClientMessage parseJ prior frame).1.Arguments =
        m.Arguments := by
  obtain ⟨hid, hle, hcmd, hnos⟩ := hwf
  have hid0 : m.MessageID ≠ 0 := by rcases hid with h | h <;> omega
  have hne0 : ¬ (m.Command = [] ∧ m.MessageID = 0) := fun hh => hcmd hh.1
  have hmin : int64Min ≤ m.MessageID := by
    unfold int64Min
    rcases hid with h | h <;> omega
  have hato : atoiGo (intToChars m.MessageID) = m.MessageID :=
    atoiGo_intToChars m.MessageID hmin hle
  have hguard : ¬ (atoiGo (intToChars m.MessageID) < -1 ∨
      atoiGo (intToChars m.MessageID) = 0) := by
    rw [hato]
    rcases hid with h | h <;> omega
  cases hA : m.Arguments with
  | none =>
    refine ⟨intToChars m.MessageID ++ spaceChar :: m.Command, ?_, ?_, ?_, ?_, ?_⟩ <;>
      [skip;
       rw [unmarshal_split parseJ prior _ _ _
            (splitFirstSpace_append _ _ (intToChars_no_space m.MessageID)),
          unmAfterId_nocmd parseJ prior _ _ hguard
            (splitFirstSpace_no_space _ hnos)];
       rw [unmarshal_split parseJ prior _ _ _
            (splitFirstSpace_append _ _ (intToChars_no_space m.MessageID)),
          unmAfterId_nocmd parseJ prior _ _ hguard
            (splitFirstSpace_no_space _ hnos)];
       rw [unmarshal_split parseJ prior _ _ _
            (splitFirstSpace_append _ _ (intToChars_no_space m.MessageID)),
          unmAfterId_nocmd parseJ prior _ _ hguard
            (splitFirstSpace_no_space _ hnos)];
       rw [unmarshal_split parseJ prior _ _ _
            (splitFirstSpace_append _ _ (intToChars_no_space m.MessageID)),
          unmAfterId_nocmd parseJ prior _ _ hguard
            (splitFirstSpace_no_space _ hnos)]]
    · unfold MarshalClientMessage
      rw [if_neg hne0, hA, if_neg hid0, if_neg hcmd]
    · exact hato
  | some a =>
    refine ⟨intToChars m.MessageID ++ spaceChar ::
      (m.Command ++ spaceChar :: marshalJ a), ?_, ?_, ?_, ?_, ?_⟩ <;>
      [skip;
       rw [unmarshal_split parseJ prior _ _ _
            (splitFirstSpace_append _ _ (intToChars_no_space m.MessageID)),
          unmAfterId_cmd parseJ prior _ _ _ _ hguard
            (splitFirstSpace_append _ _ hnos),
          unmParseArgs_ok parseJ prior _ _ _ a (hrt a)];
       rw [unmarshal_split parseJ prior _ _ _
            (splitFirstSpace_append _ _ (intToChars_no_space m.MessageID)),
          unmAfterId_cmd parseJ prior _ _ _ _ hguard
            (splitFirstSpace_append _ _ hnos),
          unmParseArgs_ok parseJ prior _ _ _ a (hrt a)];
       rw [unmarshal_split parseJ prior _ _ _
            (splitFirstSpace_append _ _ (intToChars_no_space m.MessageID)),
          unmAfterId_cmd parseJ prior _ _ _ _ hguard
            (splitFirstSpace_append _ _ hnos),
          unmParseArgs_ok parseJ prior _ _ _ a (hrt a)];
       rw [unmarshal_split parseJ prior _ _ _
            (splitFirstSpace_append _ _ (intToChars_no_space m.MessageID)),
          unmAfterId_cmd parseJ prior _ _ _ _ hguard
            (splitFirstSpace_append _ _ hnos),
          unmParseArgs_ok parseJ prior _ _ _ a (hrt a)]]
    · unfold MarshalClientMessage
      rw [if_neg hne0, hA, if_neg hid0, if_neg hcmd]
    · exact hato

/-- C6 witness: the round-trip theorem applied to the concrete message
`3 hi true` with the concrete argument codec, from a zero-valued decode
target. -/
theorem C6_roundtrip_witness :
    ∃ frame,
      MarshalClientMessage boolMarshal
        (⟨3, ['h', 'i'], some true, []⟩ : ClientMessage Bool) =
          some frame ∧
      (UnmarshalClientMessage boolParse (zeroMessage Bool) frame).2 = none ∧
      (UnmarshalClientMessage boolParse (zeroMessage Bool) frame).1.MessageID =
        3 ∧
      (UnmarshalClientMessage boolParse (zeroMessage Bool) frame).1.Command =
        ['h', 'i'] ∧
      (UnmarshalClientMessage boolParse (zeroMessage Bool) frame).1.Arguments =
        some true := by
  exact C6_roundtrip boolMarshal boolParse (by decide)
    ⟨3, ['h', 'i'], some true, []⟩ (zeroMessage Bool)
    ⟨Or.inr (by decide), by decide, by decide, by decide⟩

/-- C7 counterexample: an inbound frame with id field `-1` is accepted by
`UnmarshalClientMessage` with no error (the check rejects only ids `< -1`
or `= 0`), refuting the claim that `-1` is rejected by inbound decoding. -/
theorem C7_counterexample :
    (UnmarshalClientMessage boolParse (zeroMessage Bool)
      ['-', '1', spaceChar, 'h', 'i']).2 = none ∧
    (UnmarshalClientMessage boolParse (zeroMessage Bool)
      ['-', '1', spaceChar, 'h', 'i']).1.MessageID = -1 := by
  decide

/-- C7 (amended): messages whose id field is 0 are dropped by the reader and
inbound decoding rejects id 0 and every id below -1, but id -1 is accepted
by inbound decoding exactly like on emission, where it is the
server-initiated fill-in sentinel. -/
theorem C7_id_boundaries {J : Type} (parseJ : List Char → Option J)
    (prior : ClientMessage J) (rest : List Char)
    (hnos : ∀ c ∈ rest, c ≠ spaceChar) :
    (UnmarshalClientMessage parseJ prior
      (['-', '1', spaceChar] ++ rest)).2 = none ∧
    (UnmarshalClientMessage parseJ prior
      (['-', '1', spaceChar] ++ rest)).1.MessageID = -1 ∧
    UnmarshalClientMessage parseJ prior (['0', spaceChar] ++ rest) =
      (prior, some UnmarshalErr.protocolErrorNegativeID) ∧
    (∀ i : Int, i < -1 →
      UnmarshalClientMessage parseJ prior
        (intToChars i ++ spaceChar :: rest) =
        (prior, some UnmarshalErr.protocolErrorNegativeID)) ∧
    (∀ st : ClientMessage J × List (ClientMessage J), ∀ packet : List Char,
      (UnmarshalClientMessage parseJ st.1 packet).1.MessageID = 0 →
      (readerStep parseJ st packet).2 = st.2) := by
  have hsplit1 : splitFirstSpace (['-', '1', spaceChar] ++ rest) =
      some (['-', '1'], rest) :=
    splitFirstSpace_append ['-', '1'] rest (by decide)
  have hguard1 : ¬ (atoiGo ['-', '1'] < -1 ∨ atoiGo ['-', '1'] = 0) := by
    decide
  have h1 := unmarshal_split parseJ prior _ _ _ hsplit1
  rw [unmAfterId_nocmd parseJ prior _ _ hguard1
    (splitFirstSpace_no_space _ hnos)] at h1
  refine ⟨by rw [h1], ?_, ?_, ?_, ?_⟩
  · rw [h1]
    show atoiGo ['-', '1'] = -1
    decide
  · have hsplit0 : splitFirstSpace (['0', spaceChar] ++ rest) =
        some (['0'], rest) :=
      splitFirstSpace_append ['0'] rest (by decide)
    rw [unmarshal_split parseJ prior _ _ _ hsplit0,
      unmAfterId_badid parseJ prior _ _ (by decide)]
  · intro i hi
    have hsplit : splitFirstSpace (intToChars i ++ spaceChar :: rest) =
        some (intToChars i, rest) :=
      splitFirstSpace_append _ _ (intToChars_no_space i)
    have heq : atoiGo (intToChars i) = clamp64 i := by
      unfold atoiGo
      rw [atoiParse_intToChars]
    have hlt : atoiGo (intToChars i) < -1 := by
      rw [heq]
      unfold clamp64 int64Min int64Max
      omega
    rw [unmarshal_split parseJ prior _ _ _ hsplit,
      unmAfterId_badid parseJ prior _ _ (Or.inl hlt)]
  · intro st packet h0
    unfold readerStep
    rw [if_pos h0]

/-- C7 witness: the amended id-boundary theorem applied to the concrete
command `hi`. -/
theorem C7_id_boundaries_witness :
    (UnmarshalClientMessage boolParse (zeroMessage Bool)
      (['-', '1', spaceChar] ++ ['h', 'i'])).2 = none ∧
    (UnmarshalClientMessage boolParse (zeroMessage Bool)
      (['-', '1', spaceChar] ++ ['h', 'i'])).1.MessageID = -1 ∧
    UnmarshalClientMessage boolParse (zeroMessage Bool)
      (['0', spaceChar] ++ ['h', 'i']) =
      (zeroMessage Bool, some UnmarshalErr.protocolErrorNegativeID) ∧
    (∀ i : Int, i < -1 →
      UnmarshalClientMessage boolParse (zeroMessage Bool)
        (intToChars i ++ spaceChar :: ['h', 'i']) =
        (zeroMessage Bool, some UnmarshalErr.protocolErrorNegativeID)) ∧
    (∀ st : ClientMessage Bool × List (ClientMessage Bool),
      ∀ packet : List Char,
      (UnmarshalClientMessage boolParse st.1 packet).1.MessageID = 0 →
      (readerStep boolParse st packet).2 = st.2) := by
  exact C7_id_boundaries boolParse (zeroMessage Bool) ['h', 'i'] (by decide)

/-- C10 counterexample: a frame whose id is out of int64 range
(9223372036854775808) does not make `UnmarshalClientMessage` return an
error, contrary to the claim's list of error cases: `strconv.Atoi`'s range
error is discarded and the clamped id 9223372036854775807 is accepted. -/
theorem C10_counterexample :
    (UnmarshalClientMessage boolParse (zeroMessage Bool)
      ['9', '2', '2', '3', '3', '7', '2', '0', '3', '6', '8', '5', '4',
       '7', '7', '5', '8', '0', '8', spaceChar, 'x']).2 = none ∧
    (UnmarshalClientMessage boolParse (zeroMessage Bool)
      ['9', '2', '2', '3', '3', '7', '2', '0', '3', '6', '8', '5', '4',
       '7', '7', '5', '8', '0', '8', spaceChar, 'x']).1.MessageID =
      9223372036854775807 := by
  decide

/-- C10 (amended): when `UnmarshalClientMessage` returns a non-nil error —
a frame with no space, an id parsing to 0 or below -1 after int64 clamping
(positive out-of-range ids are clamped and accepted), or an invalid JSON
tail — the output message retains the fields written before the failure:
all previous fields for the two protocol errors, the previous `Arguments`
for a JSON error.  The reader ignores the error and forwards the message
whenever its id field is non-zero, so a malformed frame can be dispatched
carrying the previous frame's id and command. -/
theorem C10_stale_forwarding {J : Type} (parseJ : List Char → Option J)
    (prior : ClientMessage J) (data : List Char) (m : ClientMessage J)
    (err : UnmarshalErr)
    (h : UnmarshalClientMessage parseJ prior data = (m, some err)) :
    ((err = UnmarshalErr.protocolError ∨
      err = UnmarshalErr.protocolErrorNegativeID) → m = prior) ∧
    (err = UnmarshalErr.jsonError → m.Arguments = prior.Arguments) ∧
    (∀ acc : List (ClientMessage J), m.MessageID ≠ 0 →
      (readerStep parseJ (prior, acc) data).2 = acc ++ [m]) := by
  have hfwd : ∀ acc : List (ClientMessage J), m.MessageID ≠ 0 →
      (readerStep parseJ (prior, acc) data).2 = acc ++ [m] := by
    intro acc hm0
    unfold readerStep
    rw [h]
    rw [if_neg hm0]
  cases hsp : splitFirstSpace data with
  | none =>
    rw [unmarshal_no_space parseJ prior data hsp] at h
    injection h with h1 h2
    subst h1
    exact ⟨fun _ => rfl, fun _ => rfl, hfwd⟩
  | some pr =>
    obtain ⟨idPart, rest1⟩ := pr
    rw [unmarshal_split parseJ prior data idPart rest1 hsp] at h
    by_cases hg : atoiGo idPart < -1 ∨ atoiGo idPart = 0
    · rw [unmAfterId_badid parseJ prior _ _ hg] at h
      injection h with h1 h2
      subst h1
      exact ⟨fun _ => rfl, fun _ => rfl, hfwd⟩
    · cases hsp2 : splitFirstSpace rest1 with
      | none =>
        rw [unmAfterId_nocmd parseJ prior _ _ hg hsp2] at h
        injection h with h1 h2
        exact absurd h2.symm (by simp)
      | some pr2 =>
        obtain ⟨cmdPart, tail⟩ := pr2
        rw [unmAfterId_cmd parseJ prior _ _ _ _ hg hsp2] at h
        cases hpj : parseJ tail with
        | some v =>
          rw [unmParseArgs_ok parseJ prior _ _ _ v hpj] at h
          injection h with h1 h2
          exact absurd h2.symm (by simp)
        | none =>
          rw [unmParseArgs_err parseJ prior _ _ _ hpj] at h
          injection h with h1 h2
          subst h1
          refine ⟨?_, fun _ => rfl, hfwd⟩
          rintro (he | he) <;> (injection h2 with h2; rw [← h2] at he) <;>
            exact absurd he (by simp)

/-- C10 witness: after a valid frame `5 foo`, the malformed frame `junk`
(no space) is decoded with a `ProtocolError` that the reader ignores; the
stale message carrying id 5 and command `foo` is forwarded again. -/
theorem C10_stale_forwarding_witness :
    ((⟨5, ['f', 'o', 'o'], none, []⟩ : ClientMessage Bool) =
      (⟨5, ['f', 'o', 'o'], none, []⟩ : ClientMessage Bool)) ∧
    (readerStep boolParse
      ((⟨5, ['f', 'o', 'o'], none, []⟩ : ClientMessage Bool), [])
      ['j', 'u', 'n', 'k']).2 = [⟨5, ['f', 'o', 'o'], none, []⟩] := by
  have h := C10_stale_forwarding boolParse ⟨5, ['f', 'o', 'o'], none, []⟩
    ['j', 'u', 'n', 'k'] ⟨5, ['f', 'o', 'o'], none, []⟩
    UnmarshalErr.protocolError rfl
  exact ⟨h.1 (Or.inl rfl), h.2.2 [] (by decide)⟩

/-- C8 counterexample: with arguments equal to the non-integral JSON number
2.5, `ArgumentsAsInt` succeeds and returns the truncated integer 2 instead
of the typed shape-mismatch error the claim requires. -/
theorem C8_counterexample :
    ArgumentsAsInt ⟨1, ['c'], some (GoJSON.num (mkRat 5 2)), []⟩ =
      (2, none) := by
  decide

/-- C8 (amended): `ArgumentsAsInt` succeeds exactly when the arguments are a
JSON number — including non-integral ones, which it truncates toward zero —
and returns `ExpectedSingleInt` exactly when the arguments are not a
number. -/
theorem C8_arguments_as_int (cm : ClientMessage GoJSON) :
    (∀ q : ℚ, cm.Arguments = some (GoJSON.num q) →
      ArgumentsAsInt cm = (Int.tdiv q.num (q.den : Int), none)) ∧
    ((∀ q : ℚ, cm.Arguments ≠ some (GoJSON.num q)) →
      (ArgumentsAsInt cm).2 = some ArgErr.ExpectedSingleInt) := by
  constructor
  · intro q h
    unfold ArgumentsAsInt
    rw [h]
  · intro h
    unfold ArgumentsAsInt
    cases hA : cm.Arguments with
    | none => rfl
    | some v =>
      cases v with
      | num q => exact absurd hA (h q)
      | b v => rfl
      | s str => rfl
      | arr elems => rfl
      | obj fields => rfl

/-- C8 witness: the amended view theorem at an integral number (7, accepted)
and at a non-number argument (`true`, rejected with the typed error). -/
theorem C8_arguments_as_int_witness :
    ArgumentsAsInt ⟨1, ['c'], some (GoJSON.num (mkRat 7 1)), []⟩ =
      (7, none) ∧
    (ArgumentsAsInt ⟨1, ['c'], some (GoJSON.b true), []⟩).2 =
      some ArgErr.ExpectedSingleInt := by
  constructor
  · have h := (C8_arguments_as_int
      ⟨1, ['c'], some (GoJSON.num (mkRat 7 1)), []⟩).1 (mkRat 7 1) rfl
    rw [h]
    decide
  · exact (C8_arguments_as_int ⟨1, ['c'], some (GoJSON.b true), []⟩).2
      (fun q h => GoJSON.noConfusion (Option.some.inj h))

theorem tslp_append_tick (l : List SupEvent) :
    ticksSinceLastPong (l ++ [SupEvent.tick]) = ticksSinceLastPong l + 1 := by
  unfold ticksSinceLastPong
  rw [List.foldl_append]
  rfl

theorem tslp_append_pong (l : List SupEvent) :
    ticksSinceLastPong (l ++ [SupEvent.pong]) = 0 := by
  unfold ticksSinceLastPong
  rw [List.foldl_append]
  rfl

theorem tslp_append_clientMsg (l : List SupEvent) :
    ticksSinceLastPong (l ++ [SupEvent.clientMsg]) =
      ticksSinceLastPong l := by
  unfold ticksSinceLastPong
  rw [List.foldl_append]
  rfl

theorem tslp_append_serverMsg (l : List SupEvent) :
    ticksSinceLastPong (l ++ [SupEvent.serverMsg]) =
      ticksSinceLastPong l := by
  unfold ticksSinceLastPong
  rw [List.foldl_append]
  rfl

theorem supRun_append (l : List SupEvent) (ev : SupEvent) :
    supRun (l ++ [ev]) = supStep (supRun l) ev := by
  unfold supRun
  rw [List.foldl_append]
  rfl

theorem supRun_safety (evs : List SupEvent)
    (h : ∀ p : List SupEvent, p <+: evs → ticksSinceLastPong p < 5) :
    (supRun evs).closedReason = none ∧
    (supRun evs).pingCount ≤ ticksSinceLastPong evs := by
  induction evs using List.reverseRecOn with
  | nil => exact ⟨rfl, by decide⟩
  | append_singleton l ev ih =>
    have hl : ∀ p : List SupEvent, p <+: l → ticksSinceLastPong p < 5 :=
      fun p hp => h p (hp.trans (List.prefix_append l [ev]))
    obtain ⟨hopen, hcount⟩ := ih hl
    have hstep : supRun (l ++ [ev]) = supStep (supRun l) ev :=
      supRun_append l ev
    have hnotsome : (supRun l).closedReason.isSome = false := by
      rw [hopen]
      rfl
    cases ev with
    | tick =>
      have hlt : ticksSinceLastPong (l ++ [SupEvent.tick]) < 5 :=
        h _ (List.prefix_refl _)
      rw [tslp_append_tick] at hlt
      have hne5 : ¬ ((supRun l).pingCount + 1 = 5) := by omega
      rw [hstep]
      unfold supStep
      rw [hnotsome]
      simp only [Bool.false_eq_true, if_false]
      rw [if_neg hne5]
      refine ⟨rfl, ?_⟩
      rw [tslp_append_tick]
      show (supRun l).pingCount + 1 ≤ ticksSinceLastPong l + 1
      omega
    | pong =>
      rw [hstep]
      unfold supStep
      rw [hnotsome]
      simp only [Bool.false_eq_true, if_false]
      exact ⟨hopen, by rw [tslp_append_pong]⟩
    | clientMsg =>
      rw [hstep]
      unfold supStep
      rw [hnotsome]
      simp only [Bool.false_eq_true, if_false]
      exact ⟨hopen, by rw [tslp_append_clientMsg]; exact hcount⟩
    | serverMsg =>
      rw [hstep]
      unfold supStep
      rw [hnotsome]
      simp only [Bool.false_eq_true, if_false]
      exact ⟨hopen, by rw [tslp_append_serverMsg]; exact hcount⟩

theorem supRun_close_reason (evs : List SupEvent) :
    ∀ r : String, (supRun evs).closedReason = some r →
      r = closeTimedOutText := by
  induction evs using List.reverseRecOn with
  | nil => intro r h; exact absurd h (by simp [supRun])
  | append_singleton l ev ih =>
    intro r h
    rw [supRun_append] at h
    unfold supStep at h
    cases hclosed : (supRun l).closedReason.isSome with
    | true =>
      rw [hclosed] at h
      simp only [if_true] at h
      exact ih r h
    | false =>
      rw [hclosed] at h
      simp only [Bool.false_eq_true, if_false] at h
      cases ev with
      | tick =>
        by_cases h5 : (supRun l).pingCount + 1 = 5
        · rw [if_pos h5] at h
          injection h with h
          exact h.symm
        · rw [if_neg h5] at h
          exact absurd h (by simp)
      | pong =>
        have hnone : (supRun l).closedReason = none := by
          cases hc : (supRun l).closedReason with
          | none => rfl
          | some r' => rw [hc] at hclosed; exact absurd hclosed (by simp)
        rw [show ({ (supRun l) with pingCount := 0 } :
            SupPingState).closedReason = (supRun l).closedReason from rfl,
          hnone] at h
        exact absurd h (by simp)
      | clientMsg =>
        have hnone : (supRun l).closedReason = none := by
          cases hc : (supRun l).closedReason with
          | none => rfl
          | some r' => rw [hc] at hclosed; exact absurd hclosed (by simp)
        rw [hnone] at h
        exact absurd h (by simp)
      | serverMsg =>
        have hnone : (supRun l).closedReason = none := by
          cases hc : (supRun l).closedReason with
          | none => rfl
          | some r' => rw [hc] at hclosed; exact absurd hclosed (by simp)
        rw [hnone] at h
        exact absurd h (by simp)

/-- C9: in the supervisor loop, a tick with no intervening pong increments
the ping-miss counter and any pong resets it to zero; the connection closes
for ping loss exactly when the counter reaches 5, with close reason
`no ping replies for 5 minutes`; and a run whose every prefix ends with
fewer than 5 consecutive unacknowledged ticks is never closed, so the
connection is never closed for ping loss before 5 such ticks. -/
theorem C9_ping_discipline (s : SupPingState) (evs : List SupEvent)
    (r : String) :
    (s.closedReason = none →
      (supStep s SupEvent.tick).pingCount = s.pingCount + 1) ∧
    (s.closedReason = none → (supStep s SupEvent.pong).pingCount = 0) ∧
    (s.closedReason = none →
      ((supStep s SupEvent.tick).closedReason =
          some "no ping replies for 5 minutes" ↔ s.pingCount + 1 = 5)) ∧
    ((∀ n : Nat, n ≤ evs.length →
        ticksSinceLastPong (evs.take n) < 5) →
      (supRun evs).closedReason = none) ∧
    ((supRun evs).closedReason = some r →
      r = "no ping replies for 5 minutes") := by
  have hfalse : s.closedReason = none → s.closedReason.isSome = false := by
    intro h
    rw [h]
    rfl
  refine ⟨?_, ?_, ?_, ?_, supRun_close_reason evs r⟩
  · intro hnone
    unfold supStep
    rw [hfalse hnone]
    simp only [Bool.false_eq_true, if_false]
    by_cases h5 : s.pingCount + 1 = 5
    · rw [if_pos h5]
    · rw [if_neg h5]
  · intro hnone
    unfold supStep
    rw [hfalse hnone]
    simp only [Bool.false_eq_true, if_false]
  · intro hnone
    unfold supStep
    rw [hfalse hnone]
    simp only [Bool.false_eq_true, if_false]
    by_cases h5 : s.pingCount + 1 = 5
    · rw [if_pos h5]
      simp [closeTimedOutText, h5]
    · rw [if_neg h5]
      simp [h5]
  · intro htake
    refine (supRun_safety evs ?_).1
    intro p hp
    have hlen : p.length ≤ evs.length := hp.length_le
    have heq : p = evs.take p.length := List.prefix_iff_eq_take.mp hp
    rw [heq]
    exact htake p.length hlen

/-- C9 witness: at counter 4, one more unacknowledged tick closes the
connection with the reason text `no ping replies for 5 minutes`; a pong
resets the counter; and the trace tick-pong-tick-tick (never 5 consecutive
unacknowledged ticks) leaves the connection open. -/
theorem C9_ping_discipline_witness :
    (supStep ⟨0, none⟩ SupEvent.tick).pingCount = 1 ∧
    (supStep ⟨3, none⟩ SupEvent.pong).pingCount = 0 ∧
    (supStep ⟨4, none⟩ SupEvent.tick).closedReason =
      some "no ping replies for 5 minutes" ∧
    (supRun [SupEvent.tick, SupEvent.pong, SupEvent.tick,
      SupEvent.tick]).closedReason = none := by
  refine ⟨(C9_ping_discipline ⟨0, none⟩ [] "").1 rfl,
    (C9_ping_discipline ⟨3, none⟩ [] "").2.1 rfl,
    ((C9_ping_discipline ⟨4, none⟩ [] "").2.2.1 rfl).mpr rfl,
    (C9_ping_discipline ⟨0, none⟩ [SupEvent.tick, SupEvent.pong,
      SupEvent.tick, SupEvent.tick] "").2.2.2.1 (by decide)⟩
